import Mathlib

/-!
Shallow embedding of `src/earthquake_bot.py` (an incremental earthquake
notification bot) and proofs of the specification's claims about it.

The pure pipeline functions (`normalize`, `parse_line`, `filter_new`,
`build_message`) are translated directly from the Python source.  The
effectful `main` is embedded as a state-passing function `run` whose
external effects (the fetched bulletin, the delivery outcome, the cursor
file) are explicit parameters; Python library primitives used by the
source (`str.upper`, `str.replace`, `str.split`, substring `in`) are
modelled char-list-wise.
-/

namespace EarthquakeBot

/-- Model of Python `str.upper` on a single character, covering ASCII and
the Turkish letters this program manipulates; characters outside that
range are left unchanged (the bulletin alphabet never leaves it). -/
def pyUpperChar (c : Char) : Char :=
  if c = 'ı' then 'I'
  else if c = 'ş' then 'Ş'
  else if c = 'ğ' then 'Ğ'
  else if c = 'ü' then 'Ü'
  else if c = 'ö' then 'Ö'
  else if c = 'ç' then 'Ç'
  else c.toUpper

/-- Model of Python `str.upper`: character-wise uppercasing. -/
def pyUpper (s : String) : String :=
  ⟨s.data.map pyUpperChar⟩

/-- One character of a single-character `str.replace`. -/
def repChar (a b c : Char) : Char :=
  if c = a then b else c

/-- Model of Python `str.replace` for a single-character pattern and
single-character replacement (the only form the source uses). -/
def pyReplace (a b : Char) (s : String) : String :=
  ⟨s.data.map (repChar a b)⟩

/-- Source function `normalize`: uppercase, then substitute the Turkish
diacritic letters with plain-ASCII equivalents, in source order. -/
def normalize (text : String) : String :=
  pyReplace 'Ç' 'C'
    (pyReplace 'Ö' 'O'
      (pyReplace 'Ü' 'U'
        (pyReplace 'Ğ' 'G'
          (pyReplace 'Ş' 'S'
            (pyReplace 'ı' 'I'
              (pyReplace 'İ' 'I' (pyUpper text)))))))

/-- The per-character action of `normalize`: uppercase then the source's
replacement chain, innermost (first source `replace`) first. -/
def normChar (c : Char) : Char :=
  repChar 'Ç' 'C'
    (repChar 'Ö' 'O'
      (repChar 'Ü' 'U'
        (repChar 'Ğ' 'G'
          (repChar 'Ş' 'S'
            (repChar 'ı' 'I'
              (repChar 'İ' 'I' (pyUpperChar c)))))))

/-- The Turkish diacritic letters the normalizer must eliminate, both
cases. -/
def badChars : List Char :=
  ['İ', 'ı', 'Ş', 'Ğ', 'Ü', 'Ö', 'Ç', 'ş', 'ğ', 'ü', 'ö', 'ç']

/-- Whether `n` occurs at the start of `h` (char lists). -/
def startsWithL : List Char → List Char → Bool
  | [], _ => true
  | _ :: _, [] => false
  | n :: ns, h :: hs => n = h && startsWithL ns hs

/-- Model of Python substring containment `needle in hay` on char lists. -/
def containsL (needle : List Char) : List Char → Bool
  | [] => startsWithL needle []
  | h :: t => startsWithL needle (h :: t) || containsL needle t

/-- Model of Python `needle in hay` on strings. -/
def strIn (needle hay : String) : Bool :=
  containsL needle.data hay.data

/-- The specification's notion of contiguous-substring containment. -/
def SubOf (needle hay : List Char) : Prop :=
  ∃ l r, hay = l ++ needle ++ r

/-- Helper for `pySplit`: accumulate the current token (reversed) while
scanning, emitting a token at each whitespace run boundary. -/
def wordsAux : List Char → List Char → List String
  | [], acc => if acc.isEmpty then [] else [⟨acc.reverse⟩]
  | c :: rest, acc =>
    if c.isWhitespace then
      if acc.isEmpty then wordsAux rest []
      else ⟨acc.reverse⟩ :: wordsAux rest []
    else wordsAux rest (c :: acc)

/-- Model of Python `str.split()` with no separator: split on runs of
whitespace, discarding empty tokens. -/
def pySplit (s : String) : List String :=
  wordsAux s.data []

/-- The parsed record built by `parse_line` (the Python source uses a
string-keyed dict with exactly these keys). -/
structure EventRecord where
  date : String
  time : String
  lat : String
  lon : String
  depth : String
  mag : String
  place : String
deriving DecidableEq, Repr

/-- Source function `parse_line`: reject lines with fewer than 10
whitespace-delimited tokens, otherwise map tokens positionally. -/
def parse_line (line : String) : Option EventRecord :=
  let parts := pySplit line
  if parts.length < 10 then none
  else some
    { date := parts.getD 0 ""
      time := parts.getD 1 ""
      lat := parts.getD 2 ""
      lon := parts.getD 3 ""
      depth := parts.getD 4 ""
      mag := parts.getD 6 ""
      place := String.intercalate " " (parts.drop 9) }

/-- Source constant `CITIES`. -/
def CITIES : List String := ["ISTANBUL", "IZMIR", "MANISA"]

/-- Source constant `MAX_MESSAGES`. -/
def MAX_MESSAGES : Nat := 20

/-- The loop body of `filter_new`: walk the bulletin lines newest-first,
appending matching records to `found`, stopping at the cursor id or once
`MAX_MESSAGES` records are accumulated. -/
def filterNewLoop (last : String) :
    List (String × EventRecord) → List String → List (String × EventRecord)
  | found, [] => found
  | found, line :: rest =>
    match parse_line line with
    | none => filterNewLoop last found rest
    | some d =>
      if !(CITIES.any fun city => strIn city (normalize d.place)) then
        filterNewLoop last found rest
      else
        let eid := d.date ++ "_" ++ d.time
        if eid = last then found
        else
          let found2 := found ++ [(eid, d)]
          if MAX_MESSAGES ≤ found2.length then found2
          else filterNewLoop last found2 rest

/-- Source function `filter_new`: run the scan loop and return the
accumulated records reversed, oldest-first. -/
def filter_new (lines : List String) (last_id : String) :
    List (String × EventRecord) :=
  (filterNewLoop last_id [] lines).reverse

/-- One parse-and-region-filter step: the entry a line contributes to the
scan (its event id and record), if any. -/
def matchEntry (line : String) : Option (String × EventRecord) :=
  match parse_line line with
  | none => none
  | some d =>
    if CITIES.any (fun city => strIn city (normalize d.place)) then
      some (d.date ++ "_" ++ d.time, d)
    else none

/-- The region-matching records of a bulletin, newest-first. -/
def matchesOf (lines : List String) : List (String × EventRecord) :=
  lines.filterMap matchEntry

/-- Cursor-and-capacity cut of a newest-first match list: stop at the
cursor id, and stop after emitting a record when capacity reaches one.
`filterNewLoop` computes exactly this (see `filterNewLoop_eq`). -/
def cut (cap : Nat) (last : String) :
    List (String × EventRecord) → List (String × EventRecord)
  | [] => []
  | p :: rest =>
    if p.1 = last then []
    else p :: (if cap ≤ 1 then [] else cut (cap - 1) last rest)

/-- Chronological order on event records by the `(date, time)` string
pair: earlier date first, ties broken by time. -/
def rle (a b : EventRecord) : Prop :=
  a.date < b.date ∨ (a.date = b.date ∧ a.time ≤ b.time)

instance decidableRle (a b : EventRecord) : Decidable (rle a b) := by
  unfold rle
  infer_instance

/-- The fixed message header from `build_message`. -/
def header : String := "🛰️ <b>Yeni Deprem Bildirimleri</b> 🛰️\n\n"

/-- One event block of `build_message` (the Python `str.format` template
written as explicit concatenation). -/
def event_block (p : String × EventRecord) : String :=
  "📌 <b>" ++ p.2.place ++ "</b>\n   🗓 " ++ p.2.date ++ " " ++ p.2.time ++
    " (TSİ)\n   🌋 " ++ p.2.mag ++ " ML — 📏 " ++ p.2.depth ++
    " km\n   📍 " ++ p.2.lat ++ ", " ++ p.2.lon ++ "\n<code>#ID: " ++
    p.1 ++ "</code>"

/-- Source function `build_message`: header plus the event blocks joined
by blank lines (the source's append loop is a map). -/
def build_message (events : List (String × EventRecord)) : String :=
  header ++ String.intercalate "\n\n" (events.map event_block)

/-- Model of Python `str.strip()`: drop leading and trailing whitespace. -/
def pyStrip (s : String) : String :=
  ⟨((s.data.dropWhile Char.isWhitespace).reverse.dropWhile
    Char.isWhitespace).reverse⟩

/-- Source function `load_last_id`, with the cursor file's state made
explicit: `none` is a missing file, otherwise the stripped content. -/
def load_last_id (st : Option String) : String :=
  match st with
  | none => ""
  | some s => pyStrip s

/-- Source function `save_last_id`: overwrite the cursor file when the
write succeeds, leave it untouched when the write errors (the source
logs and continues). -/
def save_last_id (writeOk : Bool) (st : Option String) (eid : String) :
    Option String :=
  if writeOk then some eid else st

/-- Outcome of one `main` run: the cursor file afterwards and the
delivery attempts made (message text paired with the transport's
success/failure outcome, which `send_text` swallows). -/
structure RunOut where
  cursor : Option String
  attempts : List (String × Bool)
deriving DecidableEq, Repr

/-- Source function `main` as a state-passing function.  External
collaborators are parameters: `lines` is what `fetch_data` returned,
`st` the cursor file's state, `sendOk` the transport outcome of the one
`send_text` call, `writeOk` whether the cursor write succeeds.  The
source sends the aggregated message and then saves `new_qs[-1][0]`
unconditionally. -/
def run (lines : List String) (st : Option String)
    (sendOk writeOk : Bool) : RunOut :=
  if lines.isEmpty then ⟨st, []⟩
  else
    let last_id := load_last_id st
    let new_qs := filter_new lines last_id
    if new_qs.isEmpty then ⟨st, []⟩
    else
      ⟨save_last_id writeOk st
          (new_qs.getLastD ("", ⟨"", "", "", "", "", "", ""⟩)).1,
        [(build_message new_qs, sendOk)]⟩

theorem toNat_charOfNat_of_lt {m : Nat} (h : m < 55296) :
    (Char.ofNat m).toNat = m := by
  have hv : Nat.isValidChar m := Or.inl h
  unfold Char.ofNat
  rw [dif_pos hv]
  simp [Char.ofNatAux, Char.toNat, UInt32.toNat]

theorem toNat_toUpper_of_lower {c : Char} (h1 : 97 ≤ c.toNat)
    (h2 : c.toNat ≤ 122) : c.toUpper.toNat = c.toNat - 32 := by
  have hcond : c.toNat ≥ 97 ∧ c.toNat ≤ 122 := ⟨h1, h2⟩
  simp only [Char.toUpper]
  rw [if_pos hcond]
  exact toNat_charOfNat_of_lt (by omega)

theorem toUpper_eq_self {c : Char} (h : ¬(97 ≤ c.toNat ∧ c.toNat ≤ 122)) :
    c.toUpper = c := by
  simp only [Char.toUpper]
  rw [if_neg h]

theorem notin_badChars_of_toNat_le {u : Char} (h : u.toNat ≤ 122) :
    u ∉ badChars := by
  intro hm
  fin_cases hm <;> exact absurd h (by decide)

theorem normChar_spec (c : Char) :
    normChar (normChar c) = normChar c ∧ normChar c ∉ badChars := by
  by_cases e1 : c = 'ı'
  · subst e1; exact ⟨by decide, by decide⟩
  by_cases e2 : c = 'ş'
  · subst e2; exact ⟨by decide, by decide⟩
  by_cases e3 : c = 'ğ'
  · subst e3; exact ⟨by decide, by decide⟩
  by_cases e4 : c = 'ü'
  · subst e4; exact ⟨by decide, by decide⟩
  by_cases e5 : c = 'ö'
  · subst e5; exact ⟨by decide, by decide⟩
  by_cases e6 : c = 'ç'
  · subst e6; exact ⟨by decide, by decide⟩
  have hup : pyUpperChar c = c.toUpper := by
    simp [pyUpperChar, e1, e2, e3, e4, e5, e6]
  by_cases hr : 97 ≤ c.toNat ∧ c.toNat ≤ 122
  · have ht : c.toUpper.toNat = c.toNat - 32 :=
      toNat_toUpper_of_lower hr.1 hr.2
    have hrange : 65 ≤ c.toUpper.toNat ∧ c.toUpper.toNat ≤ 90 := by omega
    have hne : ∀ x : Char, 123 ≤ x.toNat → c.toUpper ≠ x := by
      intro x hx hcu
      rw [hcu] at hrange
      omega
    have hfix : normChar c = c.toUpper := by
      simp [normChar, hup, repChar, hne 'İ' (by decide), hne 'ı' (by decide),
        hne 'Ş' (by decide), hne 'Ğ' (by decide), hne 'Ü' (by decide),
        hne 'Ö' (by decide), hne 'Ç' (by decide)]
    have hup2 : pyUpperChar c.toUpper = c.toUpper := by
      simp only [pyUpperChar]
      rw [if_neg (hne 'ı' (by decide)), if_neg (hne 'ş' (by decide)),
        if_neg (hne 'ğ' (by decide)), if_neg (hne 'ü' (by decide)),
        if_neg (hne 'ö' (by decide)), if_neg (hne 'ç' (by decide))]
      exact toUpper_eq_self (by omega)
    refine ⟨?_, ?_⟩
    · rw [hfix]
      simp [normChar, hup2, repChar, hne 'İ' (by decide), hne 'ı' (by decide),
        hne 'Ş' (by decide), hne 'Ğ' (by decide), hne 'Ü' (by decide),
        hne 'Ö' (by decide), hne 'Ç' (by decide)]
    · rw [hfix]
      exact notin_badChars_of_toNat_le (by omega)
  · have hu : c.toUpper = c := toUpper_eq_self hr
    by_cases f1 : c = 'İ'
    · subst f1; exact ⟨by decide, by decide⟩
    by_cases f2 : c = 'Ş'
    · subst f2; exact ⟨by decide, by decide⟩
    by_cases f3 : c = 'Ğ'
    · subst f3; exact ⟨by decide, by decide⟩
    by_cases f4 : c = 'Ü'
    · subst f4; exact ⟨by decide, by decide⟩
    by_cases f5 : c = 'Ö'
    · subst f5; exact ⟨by decide, by decide⟩
    by_cases f6 : c = 'Ç'
    · subst f6; exact ⟨by decide, by decide⟩
    have hfix : normChar c = c := by
      simp [normChar, hup, hu, repChar, e1, f1, f2, f3, f4, f5, f6]
    refine ⟨by rw [hfix, hfix], ?_⟩
    rw [hfix]
    simp [badChars, e1, e2, e3, e4, e5, e6, f1, f2, f3, f4, f5, f6]

theorem normalize_data (s : String) :
    (normalize s).data = s.data.map normChar := by
  simp only [normalize, pyReplace, pyUpper, List.map_map]
  apply List.map_congr_left
  intro a _
  simp only [Function.comp, normChar]

/-- C10: `normalize` is idempotent, and its output contains none of the
Turkish diacritic letters İ, ı, Ş, Ğ, Ü, Ö, Ç in either case. -/
theorem normalize_idempotent_and_diacritic_free (s : String) :
    normalize (normalize s) = normalize s ∧
      ∀ c ∈ (normalize s).data, c ∉ badChars := by
  refine ⟨?_, ?_⟩
  · apply String.ext
    rw [normalize_data, normalize_data, List.map_map]
    apply List.map_congr_left
    intro a _
    simp only [Function.comp_apply]
    exact (normChar_spec a).1
  · intro c hc
    rw [normalize_data] at hc
    obtain ⟨a, _, rfl⟩ := List.mem_map.1 hc
    exact (normChar_spec a).2

theorem normalize_idempotent_witness :
    'I' ∈ (normalize "İzmir").data ∧ 'I' ∉ badChars ∧
      normalize (normalize "İzmir") = normalize "İzmir" :=
  ⟨by decide,
    (normalize_idempotent_and_diacritic_free "İzmir").2 'I' (by decide),
    (normalize_idempotent_and_diacritic_free "İzmir").1⟩

theorem startsWithL_iff (n : List Char) :
    ∀ h, startsWithL n h = true ↔ ∃ t, h = n ++ t := by
  induction n with
  | nil =>
    intro h
    simp [startsWithL]
  | cons x xs ih =>
    intro h
    cases h with
    | nil => simp [startsWithL]
    | cons y ys =>
      simp only [startsWithL, Bool.and_eq_true, decide_eq_true_eq,
        List.cons_append]
      constructor
      · rintro ⟨rfl, hs⟩
        obtain ⟨t, rfl⟩ := (ih ys).1 hs
        exact ⟨t, rfl⟩
      · rintro ⟨t, ht⟩
        injection ht with h1 h2
        exact ⟨h1.symm, (ih ys).2 ⟨t, h2⟩⟩

theorem containsL_iff (n : List Char) :
    ∀ h, containsL n h = true ↔ SubOf n h := by
  intro h
  induction h with
  | nil =>
    rw [show containsL n [] = startsWithL n [] from rfl, startsWithL_iff]
    constructor
    · rintro ⟨t, ht⟩
      obtain ⟨rfl, rfl⟩ := List.append_eq_nil.1 ht.symm
      exact ⟨[], [], rfl⟩
    · rintro ⟨l, r, hr⟩
      have h2 := List.append_eq_nil.1 hr.symm
      obtain ⟨rfl, rfl⟩ := List.append_eq_nil.1 h2.1
      exact ⟨[], by simp⟩
  | cons c t ih =>
    simp only [containsL, Bool.or_eq_true, startsWithL_iff, ih]
    constructor
    · rintro (⟨u, hu⟩ | ⟨l, r, hr⟩)
      · exact ⟨[], u, by simp [hu]⟩
      · exact ⟨c :: l, r, by simp [hr]⟩
    · rintro ⟨l, r, hlr⟩
      cases l with
      | nil =>
        left
        exact ⟨r, by simpa using hlr⟩
      | cons a l2 =>
        right
        injection hlr with h1 h2
        exact ⟨l2, r, h2⟩

theorem strIn_iff (needle hay : String) :
    strIn needle hay = true ↔ SubOf needle.data hay.data :=
  containsL_iff needle.data hay.data

theorem eid_ne_empty (a b : String) : a ++ "_" ++ b ≠ "" := by
  intro h
  have h2 := congrArg String.length h
  simp only [String.length_append] at h2
  have h3 : ("_" : String).length = 1 := rfl
  have h4 : ("" : String).length = 0 := rfl
  omega

theorem matchEntry_eq_some {line : String} {p : String × EventRecord}
    (h : matchEntry line = some p) :
    parse_line line = some p.2 ∧ p.1 = p.2.date ++ "_" ++ p.2.time ∧
      CITIES.any (fun city => strIn city (normalize p.2.place)) = true := by
  cases hp : parse_line line with
  | none => simp [matchEntry, hp] at h
  | some d =>
    simp only [matchEntry, hp] at h
    by_cases hb : CITIES.any (fun city => strIn city (normalize d.place)) = true
    · rw [if_pos hb] at h
      injection h with h2
      subst h2
      exact ⟨rfl, rfl, hb⟩
    · rw [if_neg hb] at h
      exact absurd h (by simp)

theorem fst_ne_empty_of_mem_matchesOf {lines : List String}
    {p : String × EventRecord} (hp : p ∈ matchesOf lines) : p.1 ≠ "" := by
  obtain ⟨l, _, hm⟩ := List.mem_filterMap.1 hp
  obtain ⟨_, he, _⟩ := matchEntry_eq_some hm
  rw [he]
  exact eid_ne_empty _ _

theorem filterNewLoop_eq (last : String) :
    ∀ (lines : List String) (found : List (String × EventRecord)),
      found.length < MAX_MESSAGES →
      filterNewLoop last found lines =
        found ++ cut (MAX_MESSAGES - found.length) last (matchesOf lines) := by
  intro lines
  induction lines with
  | nil =>
    intro found _
    simp [filterNewLoop, matchesOf, cut]
  | cons line rest ih =>
    intro found hf
    cases hp : parse_line line with
    | none =>
      have hm : matchesOf (line :: rest) = matchesOf rest := by
        simp [matchesOf, matchEntry, hp]
      rw [hm]
      simp only [filterNewLoop, hp]
      exact ih found hf
    | some d =>
      cases hb : CITIES.any (fun city => strIn city (normalize d.place)) with
      | false =>
        have hm : matchesOf (line :: rest) = matchesOf rest := by
          simp [matchesOf, matchEntry, hp, hb]
        rw [hm]
        simp only [filterNewLoop, hp, hb, Bool.not_false, if_true]
        exact ih found hf
      | true =>
        have hm : matchesOf (line :: rest) =
            (d.date ++ "_" ++ d.time, d) :: matchesOf rest := by
          simp [matchesOf, matchEntry, hp, hb]
        rw [hm]
        simp only [filterNewLoop, hp, hb, Bool.not_true, if_false]
        by_cases he : d.date ++ "_" ++ d.time = last
        · rw [if_pos he]
          rw [show cut (MAX_MESSAGES - found.length) last
              ((d.date ++ "_" ++ d.time, d) :: matchesOf rest) = [] from
            by simp [cut, he]]
          simp
        · rw [if_neg he]
          rw [show cut (MAX_MESSAGES - found.length) last
              ((d.date ++ "_" ++ d.time, d) :: matchesOf rest) =
              (d.date ++ "_" ++ d.time, d) ::
                (if MAX_MESSAGES - found.length ≤ 1 then []
                 else cut (MAX_MESSAGES - found.length - 1) last
                   (matchesOf rest)) from by simp [cut, he]]
          have hlen : (found ++ [(d.date ++ "_" ++ d.time, d)]).length =
              found.length + 1 := by simp
          by_cases hcap : MAX_MESSAGES ≤ (found ++ [(d.date ++ "_" ++ d.time, d)]).length
          · rw [if_pos hcap]
            rw [hlen] at hcap
            rw [if_pos (show MAX_MESSAGES - found.length ≤ 1 by omega)]
            simp
          · rw [if_neg hcap]
            rw [hlen] at hcap
            rw [ih _ (show (found ++ [(d.date ++ "_" ++ d.time, d)]).length <
                MAX_MESSAGES by rw [hlen]; omega)]
            rw [if_neg (show ¬(MAX_MESSAGES - found.length ≤ 1) by omega)]
            rw [hlen]
            rw [show MAX_MESSAGES - (found.length + 1) =
                MAX_MESSAGES - found.length - 1 from by omega]
            simp

theorem filter_new_eq (lines : List String) (last : String) :
    filter_new lines last =
      (cut MAX_MESSAGES last (matchesOf lines)).reverse := by
  unfold filter_new
  rw [filterNewLoop_eq last lines [] (by decide)]
  simp

theorem cut_sublist (last : String) :
    ∀ (l : List (String × EventRecord)) (cap : Nat),
      List.Sublist (cut cap last l) l := by
  intro l
  induction l with
  | nil =>
    intro cap
    simp [cut]
  | cons p rest ih =>
    intro cap
    simp only [cut]
    by_cases he : p.1 = last
    · rw [if_pos he]
      exact List.nil_sublist _
    · rw [if_neg he]
      by_cases hc : cap ≤ 1
      · rw [if_pos hc]
        exact List.Sublist.cons₂ p (List.nil_sublist rest)
      · rw [if_neg hc]
        exact List.Sublist.cons₂ p (ih (cap - 1))

theorem cut_eq_take (last : String) :
    ∀ (l : List (String × EventRecord)) (cap : Nat), 1 ≤ cap →
      (∀ p ∈ l, p.1 ≠ last) → cut cap last l = l.take cap := by
  intro l
  induction l with
  | nil =>
    intro cap _ _
    simp [cut]
  | cons p rest ih =>
    intro cap hc hn
    obtain ⟨k, rfl⟩ : ∃ k, cap = k + 1 := ⟨cap - 1, by omega⟩
    simp only [cut]
    rw [if_neg (hn p (List.mem_cons_self p rest))]
    cases k with
    | zero => simp
    | succ m =>
      rw [if_neg (by omega)]
      have hs : m + 1 + 1 - 1 = m + 1 := rfl
      rw [hs, ih (m + 1) (by omega)
        (fun q hq => hn q (List.mem_cons_of_mem p hq))]
      simp [List.take_succ_cons]

/-- C3: with an empty cursor and more than `MAX_MESSAGES` region-matching
records in the bulletin, the selector returns exactly `MAX_MESSAGES`
records, namely the `MAX_MESSAGES` newest (first, in the newest-first
bulletin) matches, oldest-first. -/
theorem cold_start_batch_bound (lines : List String)
    (h : MAX_MESSAGES < (matchesOf lines).length) :
    filter_new lines "" = ((matchesOf lines).take MAX_MESSAGES).reverse ∧
      (filter_new lines "").length = MAX_MESSAGES := by
  have hne : ∀ p ∈ matchesOf lines, p.1 ≠ "" :=
    fun p hp => fst_ne_empty_of_mem_matchesOf hp
  have h1 : filter_new lines "" =
      ((matchesOf lines).take MAX_MESSAGES).reverse := by
    rw [filter_new_eq, cut_eq_take "" (matchesOf lines) MAX_MESSAGES
      (by decide) hne]
  refine ⟨h1, ?_⟩
  rw [h1]
  simp only [List.length_reverse, List.length_take]
  omega

theorem cold_start_batch_bound_witness :
    MAX_MESSAGES <
        (matchesOf (List.replicate 21 "a b c d e f g h i IZMIR")).length ∧
      (filter_new (List.replicate 21 "a b c d e f g h i IZMIR") "").length =
        MAX_MESSAGES :=
  ⟨by decide, (cold_start_batch_bound _ (by decide)).2⟩

/-- C4 as stated is false: a bulletin with two identical matching lines
produces a batch in which the same event id appears twice. -/
theorem duplicate_id_counterexample :
    ¬ (((filter_new ["a b c d e f g h i IZMIR", "a b c d e f g h i IZMIR"]
        "").map Prod.fst).Nodup) := by
  decide

/-- C4 amended: when the bulletin's matching records carry pairwise
distinct event ids, each distinct event id appears at most once in the
selector's batch. -/
theorem batch_ids_nodup_of_matches_nodup (lines : List String)
    (last : String) (h : ((matchesOf lines).map Prod.fst).Nodup) :
    ((filter_new lines last).map Prod.fst).Nodup := by
  rw [filter_new_eq, List.map_reverse, List.nodup_reverse]
  exact List.Nodup.sublist
    (List.Sublist.map Prod.fst (cut_sublist last (matchesOf lines)
      MAX_MESSAGES)) h

theorem batch_ids_nodup_witness :
    ((matchesOf ["b b c d e f g h i IZMIR", "a a c d e f g h i IZMIR"]).map
        Prod.fst).Nodup ∧
      ((filter_new ["b b c d e f g h i IZMIR", "a a c d e f g h i IZMIR"]
        "x").map Prod.fst).Nodup :=
  ⟨by decide, batch_ids_nodup_of_matches_nodup _ "x" (by decide)⟩

/-- C5: when the bulletin's matching records are in newest-first
`(date, time)` order, the selector's batch is sorted ascending by
`(date, time)`. -/
theorem batch_sorted_of_bulletin_newest_first (lines : List String)
    (last : String)
    (h : List.Sorted (fun a b => rle b a) ((matchesOf lines).map Prod.snd)) :
    List.Sorted rle ((filter_new lines last).map Prod.snd) := by
  rw [filter_new_eq, List.map_reverse]
  have hsub : List.Sublist
      ((cut MAX_MESSAGES last (matchesOf lines)).map Prod.snd)
      ((matchesOf lines).map Prod.snd) :=
    List.Sublist.map Prod.snd (cut_sublist last (matchesOf lines)
      MAX_MESSAGES)
  exact List.pairwise_reverse.2 (List.Pairwise.sublist hsub h)

theorem batch_sorted_witness :
    List.Sorted (fun a b => rle b a)
        ((matchesOf ["b b c d e f g h i IZMIR",
          "a a c d e f g h i IZMIR"]).map Prod.snd) ∧
      List.Sorted rle
        ((filter_new ["b b c d e f g h i IZMIR",
          "a a c d e f g h i IZMIR"] "").map Prod.snd) := by
  have hs : List.Sorted (fun a b => rle b a)
      ((matchesOf ["b b c d e f g h i IZMIR",
        "a a c d e f g h i IZMIR"]).map Prod.snd) := by
    rw [show (matchesOf ["b b c d e f g h i IZMIR",
        "a a c d e f g h i IZMIR"]).map Prod.snd =
      [⟨"b", "b", "c", "d", "e", "g", "IZMIR"⟩,
        ⟨"a", "a", "c", "d", "e", "g", "IZMIR"⟩] from by decide]
    refine List.sorted_cons.2 ⟨?_, List.sorted_singleton _⟩
    intro b hb
    rw [List.mem_singleton] at hb
    subst hb
    exact Or.inl (by rw [String.lt_iff_toList_lt]; decide)
  exact ⟨hs, batch_sorted_of_bulletin_newest_first _ "" hs⟩

/-- C6: a parsed record enters the single-line batch (cursor empty) iff
some watched city name is a contiguous substring of its normalized place
text. -/
theorem region_filter_exact (line : String) (d : EventRecord)
    (h : parse_line line = some d) :
    ((filter_new [line] "").map Prod.snd = [d]) ↔
      ∃ c ∈ CITIES, SubOf c.data (normalize d.place).data := by
  rw [filter_new_eq]
  by_cases hb : CITIES.any (fun city => strIn city (normalize d.place)) = true
  · have hm : matchesOf [line] = [(d.date ++ "_" ++ d.time, d)] := by
      simp [matchesOf, matchEntry, h, hb]
    have hne : ∀ p ∈ [(d.date ++ "_" ++ d.time, d)], p.1 ≠ "" := by
      intro p hp
      rw [List.mem_singleton] at hp
      subst hp
      exact eid_ne_empty _ _
    have hcut : cut MAX_MESSAGES "" [(d.date ++ "_" ++ d.time, d)] =
        [(d.date ++ "_" ++ d.time, d)] := by
      rw [cut_eq_take "" _ MAX_MESSAGES (by decide) hne]
      rfl
    rw [hm, hcut]
    constructor
    · intro _
      obtain ⟨c, hc, hcs⟩ := List.any_eq_true.1 hb
      exact ⟨c, hc, (strIn_iff c (normalize d.place)).1 hcs⟩
    · intro _
      simp
  · have hm : matchesOf [line] = [] := by
      simp [matchesOf, matchEntry, h, hb]
    rw [hm]
    constructor
    · intro hx
      simp [cut] at hx
    · rintro ⟨c, hc, hcs⟩
      exact absurd
        (List.any_eq_true.2 ⟨c, hc, (strIn_iff c (normalize d.place)).2 hcs⟩)
        hb

theorem region_filter_exact_witness :
    parse_line "a b c d e f g h i IZMIR" =
        some ⟨"a", "b", "c", "d", "e", "g", "IZMIR"⟩ ∧
      (filter_new ["a b c d e f g h i IZMIR"] "").map Prod.snd =
        [⟨"a", "b", "c", "d", "e", "g", "IZMIR"⟩] :=
  ⟨by decide,
    (region_filter_exact "a b c d e f g h i IZMIR"
        ⟨"a", "b", "c", "d", "e", "g", "IZMIR"⟩ (by decide)).2
      ⟨"IZMIR", by decide, ⟨[], [], by decide⟩⟩⟩

theorem run_eq (lines : List String) (st : Option String)
    (sendOk writeOk : Bool) :
    run lines st sendOk writeOk =
      if lines.isEmpty then ⟨st, []⟩
      else if (filter_new lines (load_last_id st)).isEmpty then ⟨st, []⟩
      else
        ⟨save_last_id writeOk st
            ((filter_new lines (load_last_id st)).getLastD
              ("", ⟨"", "", "", "", "", "", ""⟩)).1,
          [(build_message (filter_new lines (load_last_id st)), sendOk)]⟩ :=
  rfl

theorem run_of_batch_empty (lines : List String) (st : Option String)
    (sendOk writeOk : Bool)
    (hf : filter_new lines (load_last_id st) = []) :
    run lines st sendOk writeOk = ⟨st, []⟩ := by
  rw [run_eq]
  by_cases hl : lines.isEmpty = true
  · rw [if_pos hl]
  · rw [if_neg hl, if_pos (by simp [hf])]

theorem run_of_batch_nonempty (lines : List String) (st : Option String)
    (sendOk writeOk : Bool)
    (h : filter_new lines (load_last_id st) ≠ []) :
    (run lines st sendOk writeOk).cursor =
        save_last_id writeOk st
          (((filter_new lines (load_last_id st)).getLastD
            ("", ⟨"", "", "", "", "", "", ""⟩)).1) ∧
      (run lines st sendOk writeOk).attempts =
        [(build_message (filter_new lines (load_last_id st)), sendOk)] := by
  have hl : lines ≠ [] := by
    intro he
    subst he
    exact h rfl
  rw [run_eq, if_neg (by simp [hl]), if_neg (by simp [h])]
  exact ⟨rfl, rfl⟩

theorem getLastD_fst_eq (l : List (String × EventRecord)) (h : l ≠ []) :
    some ((l.getLastD ("", ⟨"", "", "", "", "", "", ""⟩)).1) =
      l.getLast?.map Prod.fst := by
  obtain ⟨a, ha⟩ := Option.isSome_iff_exists.1 (List.getLast?_isSome.2 h)
  rw [List.getLastD_eq_getLast?, ha]
  rfl

/-- C7: with the loaded cursor equal to the newest matching record's
event id, the selector returns an empty batch, the run makes no delivery
attempt and leaves the cursor file unchanged, and a second run against
the unchanged bulletin does the same. -/
theorem idempotent_rerun (lines : List String) (st : Option String)
    (s1 w1 s2 w2 : Bool)
    (h : (matchesOf lines).head?.map Prod.fst = some (load_last_id st)) :
    filter_new lines (load_last_id st) = [] ∧
      run lines st s1 w1 = ⟨st, []⟩ ∧
      run lines (run lines st s1 w1).cursor s2 w2 = ⟨st, []⟩ := by
  cases hm : matchesOf lines with
  | nil => rw [hm] at h; simp at h
  | cons p rest =>
    rw [hm] at h
    simp only [List.head?_cons, Option.map_some] at h
    have hp1 : p.1 = load_last_id st := by injection h
    have hf : filter_new lines (load_last_id st) = [] := by
      rw [filter_new_eq, hm]
      rw [show cut MAX_MESSAGES (load_last_id st) (p :: rest) = [] from
        by simp [cut, hp1]]
      rfl
    refine ⟨hf, run_of_batch_empty lines st s1 w1 hf, ?_⟩
    rw [run_of_batch_empty lines st s1 w1 hf]
    exact run_of_batch_empty lines st s2 w2 hf

theorem idempotent_rerun_witness :
    (matchesOf ["a b c d e f g h i IZMIR"]).head?.map Prod.fst =
        some (load_last_id (some "a_b")) ∧
      filter_new ["a b c d e f g h i IZMIR"]
          (load_last_id (some "a_b")) = [] ∧
      run ["a b c d e f g h i IZMIR"] (some "a_b") true true =
        ⟨some "a_b", []⟩ :=
  ⟨by decide,
    (idempotent_rerun ["a b c d e f g h i IZMIR"] (some "a_b")
      true true false false (by decide)).1,
    (idempotent_rerun ["a b c d e f g h i IZMIR"] (some "a_b")
      true true false false (by decide)).2.1⟩

/-- C2: after a successful run whose selector returned a non-empty
batch, the persisted cursor equals the event id of the last (newest)
element of that batch. -/
theorem cursor_advances_to_last_batch_id (lines : List String)
    (st : Option String)
    (h : filter_new lines (load_last_id st) ≠ []) :
    (run lines st true true).cursor =
      (filter_new lines (load_last_id st)).getLast?.map Prod.fst := by
  rw [(run_of_batch_nonempty lines st true true h).1]
  exact getLastD_fst_eq _ h

theorem cursor_advances_witness :
    filter_new ["a b c d e f g h i IZMIR"] (load_last_id none) ≠ [] ∧
      (run ["a b c d e f g h i IZMIR"] none true true).cursor =
        some "a_b" := by
  have h : filter_new ["a b c d e f g h i IZMIR"] (load_last_id none) ≠ [] :=
    by decide
  refine ⟨h, ?_⟩
  rw [cursor_advances_to_last_batch_id ["a b c d e f g h i IZMIR"] none h]
  decide

/-- C1 as stated is false: on this bulletin the batch is non-empty, the
delivery call fails, yet the persisted cursor changes from its prior
(absent) state. -/
theorem delivery_failure_cursor_counterexample :
    filter_new ["a b c d e f g h i IZMIR"] (load_last_id none) ≠ [] ∧
      (run ["a b c d e f g h i IZMIR"] none false true).attempts.map
          Prod.snd = [false] ∧
      (run ["a b c d e f g h i IZMIR"] none false true).cursor ≠ none := by
  refine ⟨by decide, ?_, by decide⟩
  rw [(run_of_batch_nonempty ["a b c d e f g h i IZMIR"] none false true
    (by decide)).2]
  rfl

/-- C1 amended: the run advances the cursor regardless of the delivery
outcome — when the batch is non-empty and the cursor write succeeds, the
persisted cursor equals the last batch element's event id even though
the delivery call reported failure. -/
theorem cursor_advances_on_delivery_failure (lines : List String)
    (st : Option String)
    (h : filter_new lines (load_last_id st) ≠ []) :
    (run lines st false true).cursor =
        (filter_new lines (load_last_id st)).getLast?.map Prod.fst ∧
      (run lines st false true).attempts.map Prod.snd = [false] := by
  refine ⟨?_, ?_⟩
  · rw [(run_of_batch_nonempty lines st false true h).1]
    exact getLastD_fst_eq _ h
  · rw [(run_of_batch_nonempty lines st false true h).2]
    rfl

theorem cursor_advances_on_delivery_failure_witness :
    filter_new ["a b c d e f g h i IZMIR"] (load_last_id none) ≠ [] ∧
      (run ["a b c d e f g h i IZMIR"] none false true).cursor =
        some "a_b" := by
  have h : filter_new ["a b c d e f g h i IZMIR"] (load_last_id none) ≠ [] :=
    by decide
  refine ⟨h, ?_⟩
  rw [(cursor_advances_on_delivery_failure ["a b c d e f g h i IZMIR"]
    none h).1]
  decide

/-- C8: the parser rejects a line iff it has fewer than 10
whitespace-delimited tokens, and on acceptance maps token 0 to date, 1
to time, 2 to latitude, 3 to longitude, 4 to depth, 6 to magnitude, and
tokens 9..end joined by single spaces to place. -/
theorem parse_line_spec (line : String) :
    (parse_line line = none ↔ (pySplit line).length < 10) ∧
      ∀ d, parse_line line = some d →
        d.date = (pySplit line).getD 0 "" ∧
        d.time = (pySplit line).getD 1 "" ∧
        d.lat = (pySplit line).getD 2 "" ∧
        d.lon = (pySplit line).getD 3 "" ∧
        d.depth = (pySplit line).getD 4 "" ∧
        d.mag = (pySplit line).getD 6 "" ∧
        d.place = String.intercalate " " ((pySplit line).drop 9) := by
  simp only [parse_line]
  by_cases hl : (pySplit line).length < 10
  · rw [if_pos hl]
    exact ⟨by simp [hl], fun d hd => by simp at hd⟩
  · rw [if_neg hl]
    refine ⟨by simp [hl], ?_⟩
    intro d hd
    injection hd with h2
    subst h2
    exact ⟨rfl, rfl, rfl, rfl, rfl, rfl, rfl⟩

theorem parse_line_spec_witness :
    parse_line "a b c d e f g h i IZMIR" =
        some ⟨"a", "b", "c", "d", "e", "g", "IZMIR"⟩ ∧
      ("a" : String) = (pySplit "a b c d e f g h i IZMIR").getD 0 "" ∧
      ("IZMIR" : String) =
        String.intercalate " " ((pySplit "a b c d e f g h i IZMIR").drop 9) := by
  have h := (parse_line_spec "a b c d e f g h i IZMIR").2
    ⟨"a", "b", "c", "d", "e", "g", "IZMIR"⟩ (by decide)
  exact ⟨by decide, h.1, h.2.2.2.2.2.2⟩

/-- C9: the formatter produces exactly one block per batch element (no
event mutated or dropped), the message being the header plus the blocks
joined by blank lines, with every field of every event appearing
verbatim in its block. -/
theorem build_message_blocks (events : List (String × EventRecord)) :
    (events.map event_block).length = events.length ∧
      build_message events =
        header ++ String.intercalate "\n\n" (events.map event_block) ∧
      ∀ p ∈ events,
        SubOf p.2.place.data (event_block p).data ∧
        SubOf p.2.date.data (event_block p).data ∧
        SubOf p.2.time.data (event_block p).data ∧
        SubOf p.2.mag.data (event_block p).data ∧
        SubOf p.2.depth.data (event_block p).data ∧
        SubOf p.2.lat.data (event_block p).data ∧
        SubOf p.2.lon.data (event_block p).data ∧
        SubOf p.1.data (event_block p).data := by
  refine ⟨List.length_map events event_block, rfl, ?_⟩
  intro p _
  refine ⟨⟨("📌 <b>").data,
      ("</b>\n   🗓 " ++ p.2.date ++ " " ++ p.2.time ++ " (TSİ)\n   🌋 " ++
        p.2.mag ++ " ML — 📏 " ++ p.2.depth ++ " km\n   📍 " ++ p.2.lat ++
        ", " ++ p.2.lon ++ "\n<code>#ID: " ++ p.1 ++ "</code>").data,
      by simp [event_block]⟩,
    ⟨("📌 <b>" ++ p.2.place ++ "</b>\n   🗓 ").data,
      (" " ++ p.2.time ++ " (TSİ)\n   🌋 " ++ p.2.mag ++ " ML — 📏 " ++
        p.2.depth ++ " km\n   📍 " ++ p.2.lat ++ ", " ++ p.2.lon ++
        "\n<code>#ID: " ++ p.1 ++ "</code>").data,
      by simp [event_block]⟩,
    ⟨("📌 <b>" ++ p.2.place ++ "</b>\n   🗓 " ++ p.2.date ++ " ").data,
      (" (TSİ)\n   🌋 " ++ p.2.mag ++ " ML — 📏 " ++ p.2.depth ++
        " km\n   📍 " ++ p.2.lat ++ ", " ++ p.2.lon ++ "\n<code>#ID: " ++
        p.1 ++ "</code>").data,
      by simp [event_block]⟩,
    ⟨("📌 <b>" ++ p.2.place ++ "</b>\n   🗓 " ++ p.2.date ++ " " ++
        p.2.time ++ " (TSİ)\n   🌋 ").data,
      (" ML — 📏 " ++ p.2.depth ++ " km\n   📍 " ++ p.2.lat ++ ", " ++
        p.2.lon ++ "\n<code>#ID: " ++ p.1 ++ "</code>").data,
      by simp [event_block]⟩,
    ⟨("📌 <b>" ++ p.2.place ++ "</b>\n   🗓 " ++ p.2.date ++ " " ++
        p.2.time ++ " (TSİ)\n   🌋 " ++ p.2.mag ++ " ML — 📏 ").data,
      (" km\n   📍 " ++ p.2.lat ++ ", " ++ p.2.lon ++ "\n<code>#ID: " ++
        p.1 ++ "</code>").data,
      by simp [event_block]⟩,
    ⟨("📌 <b>" ++ p.2.place ++ "</b>\n   🗓 " ++ p.2.date ++ " " ++
        p.2.time ++ " (TSİ)\n   🌋 " ++ p.2.mag ++ " ML — 📏 " ++
        p.2.depth ++ " km\n   📍 ").data,
      (", " ++ p.2.lon ++ "\n<code>#ID: " ++ p.1 ++ "</code>").data,
      by simp [event_block]⟩,
    ⟨("📌 <b>" ++ p.2.place ++ "</b>\n   🗓 " ++ p.2.date ++ " " ++
        p.2.time ++ " (TSİ)\n   🌋 " ++ p.2.mag ++ " ML — 📏 " ++
        p.2.depth ++ " km\n   📍 " ++ p.2.lat ++ ", ").data,
      ("\n<code>#ID: " ++ p.1 ++ "</code>").data,
      by simp [event_block]⟩,
    ⟨("📌 <b>" ++ p.2.place ++ "</b>\n   🗓 " ++ p.2.date ++ " " ++
        p.2.time ++ " (TSİ)\n   🌋 " ++ p.2.mag ++ " ML — 📏 " ++
        p.2.depth ++ " km\n   📍 " ++ p.2.lat ++ ", " ++ p.2.lon ++
        "\n<code>#ID: ").data,
      ("</code>").data,
      by simp [event_block]⟩⟩

theorem build_message_blocks_witness :
    ([(("a_b" : String),
        (⟨"a", "b", "c", "d", "e", "g", "IZMIR"⟩ : EventRecord))].map
      event_block).length = 1 ∧
      SubOf ("IZMIR" : String).data
        (event_block
          ("a_b", ⟨"a", "b", "c", "d", "e", "g", "IZMIR"⟩)).data := by
  have h := build_message_blocks
    [("a_b", ⟨"a", "b", "c", "d", "e", "g", "IZMIR"⟩)]
  exact ⟨h.1, (h.2.2 _ (List.mem_singleton.2 rfl)).1⟩

end EarthquakeBot
